import Mathlib

/-!
Verification of the Laniakea job life-cycle and scheduling subsystem.

The data model (`JobStatus`, `JobResult`, `Job`) and the triggering logic
(`trigger_image_build`) are shallow embeddings of
`src/laniakea/db/jobs.py` and `src/admin/lkadmin/isotope.py`.
The dispatcher, state machine and starvation monitor are not present in the
available sources; they are modelled from the specification (each such
definition says so in its doc comment).
-/

namespace Laniakea

/-- State of a job: embeds `JobStatus` from `src/laniakea/db/jobs.py`
(an `IntEnum` with `UNKNOWN = 0` and seven further members). -/
inductive JobStatus where
  | UNKNOWN
  | WAITING      -- waiting for someone to take the job
  | DEPWAIT      -- waiting for a dependency
  | SCHEDULED    -- job has been assigned
  | RUNNING      -- the job is running
  | DONE         -- the job is done
  | TERMINATED   -- the job was terminated
  | STARVING     -- the job was denied computing resources for an extended period
  deriving DecidableEq, Repr

/-- Result of a job: embeds `JobResult` from `src/laniakea/db/jobs.py`. -/
inductive JobResult where
  | UNKNOWN
  | SUCCESS_PENDING
  | SUCCESS
  | FAILURE_DEPENDENCY
  | FAILURE_PENDING
  | FAILURE
  deriving DecidableEq, Repr

/-- Constant `JobKind.OS_IMAGE_BUILD` from `src/laniakea/db/jobs.py`. -/
def JobKind.OS_IMAGE_BUILD : String := "os-image-build"

/-- Constant `LkModule.ISOTOPE` (the module name the isotope trigger stamps on jobs). -/
def LkModule.ISOTOPE : String := "isotope"

/-- A task to be performed: embeds the `Job` row of `src/laniakea/db/jobs.py`.
UUIDs are modelled as naturals drawn from a fresh-id supply (`uuid4` always
yields a fresh identifier); timestamps as naturals. -/
structure Job where
  uuid : Nat
  status : JobStatus
  module : String
  kind : String
  trigger : Option Nat
  version : Option String
  architecture : String
  time_created : Nat
  time_assigned : Option Nat
  time_finished : Option Nat
  priority : Int
  worker : Option Nat
  result : JobResult
  latest_log_excerpt : Option String
  deriving DecidableEq, Repr

/-- A freshly constructed `Job` row with no fields explicitly supplied:
the column defaults of `src/laniakea/db/jobs.py` (`status=WAITING`,
`architecture='any'`, `result=UNKNOWN`, fresh uuid, `time_created=now`;
all other columns unset / NULL). -/
def Job.new (uuid now : Nat) : Job where
  uuid := uuid
  status := JobStatus.WAITING
  module := ""
  kind := ""
  trigger := none
  version := none
  architecture := "any"
  time_created := now
  time_assigned := none
  time_finished := none
  priority := 0
  worker := none
  result := JobResult.UNKNOWN
  latest_log_excerpt := none

/-- Predicate `is_taken` from `src/laniakea/db/jobs.py`. -/
def Job.is_taken (j : Job) : Bool :=
  j.status == JobStatus.SCHEDULED || j.status == JobStatus.RUNNING

/-- Predicate `has_result` from `src/laniakea/db/jobs.py`. -/
def Job.has_result (j : Job) : Bool :=
  j.result != JobResult.UNKNOWN

/-- Predicate `is_failed` from `src/laniakea/db/jobs.py`. -/
def Job.is_failed (j : Job) : Bool :=
  j.result == JobResult.FAILURE
    || j.result == JobResult.FAILURE_PENDING
    || j.result == JobResult.FAILURE_DEPENDENCY

/-- The durable job store: the `jobs` table plus the fresh-uuid supply. -/
structure JobStore where
  jobs : List Job
  nextId : Nat
  deriving DecidableEq, Repr

/-- Recipe record `ImageBuildRecipe` (the fields `trigger_image_build` reads). -/
structure ImageBuildRecipe where
  uuid : Nat
  name : String
  architectures : List String
  deriving DecidableEq, Repr

/-- One loop iteration of `trigger_image_build`: `job = Job()` followed by
setting `module`, `kind`, `trigger` and `architecture`. -/
def mkTriggerJob (recipe_uuid : Nat) (arch : String) (uuid now : Nat) : Job :=
  { Job.new uuid now with
      module := LkModule.ISOTOPE
      kind := JobKind.OS_IMAGE_BUILD
      trigger := some recipe_uuid
      architecture := arch }

/-- The jobs the `for arch in recipe.architectures` loop of
`trigger_image_build` adds to the session, in input order, with fresh uuids
starting at `base`. -/
def pendingJobs (recipe_uuid now : Nat) : Nat → List String → List Job
  | _, [] => []
  | base, a :: rest =>
      mkTriggerJob recipe_uuid a base now :: pendingJobs recipe_uuid now (base + 1) rest

/-- Commit of the session, atomically persisting all session-pending rows at once. -/
def sessionCommit (st : JobStore) (pending : List Job) : JobStore :=
  { jobs := st.jobs ++ pending, nextId := st.nextId + pending.length }

/-- Function `trigger_image_build` from `src/admin/lkadmin/isotope.py`: looks the
recipe up by name (`sys.exit(2)`, modelled as `.error 2`, when absent), adds
one job per architecture of the recipe to the session and commits once.
Returns the new store and the printed `job_count`. -/
def trigger_image_build (recipes : List ImageBuildRecipe) (recipe_name : String)
    (now : Nat) (st : JobStore) : Except Nat (JobStore × Nat) :=
  match recipes.find? (fun r => r.name == recipe_name) with
  | none => Except.error 2
  | some recipe =>
      Except.ok
        (sessionCommit st (pendingJobs recipe.uuid now st.nextId recipe.architectures),
         recipe.architectures.length)

/-- Function `trigger_image_build` as run inside `session_scope`, with a possible
exception at loop iteration `i` (`fault = some i`) or at commit.
Modelled from the spec: `session_scope` (not under the available sources)
rolls back on any exception, so a fault leaves the persisted store
unchanged; only a fault-free run commits the whole batch. Returns the
persisted store and `some job_count` on success, `none` on abort. -/
def trigger_image_build_faulty (recipes : List ImageBuildRecipe) (recipe_name : String)
    (now : Nat) (fault : Option Nat) (st : JobStore) : JobStore × Option Nat :=
  match fault with
  | some _ => (st, none)
  | none =>
      match trigger_image_build recipes recipe_name now st with
      | Except.error _ => (st, none)
      | Except.ok (st2, n) => (st2, some n)

/-- Number of persisted jobs carrying the trigger reference `r`. -/
def countTrigger (st : JobStore) (r : Nat) : Nat :=
  (st.jobs.filter (fun j => j.trigger == some r)).length

/-- Worker capability descriptor: advertised architectures and supported
job kinds (spec section 3, "Worker"). -/
structure WorkerCaps where
  archs : List String
  kinds : List String
  deriving DecidableEq, Repr

/-- Modelled from the spec: the Dispatcher's candidate test (section 4.2,
no dispatcher code is under the available sources). A job is a candidate
when its status is `Waiting` (a `Starving` job remains claimable exactly
as a `Waiting` one, section 4.4), its kind is among the worker's supported
kinds, and its architecture is the wildcard `"any"` or among the worker's
advertised architectures. -/
def eligible (caps : WorkerCaps) (j : Job) : Bool :=
  (j.status == JobStatus.WAITING || j.status == JobStatus.STARVING)
    && caps.kinds.contains j.kind
    && (j.architecture == "any" || caps.archs.contains j.architecture)

/-- Modelled from the spec: the Dispatcher's candidate ordering (section
4.2): `a` is scheduled strictly before `b` when `a` has higher priority,
or equal priority and strictly earlier creation time. -/
def betterCandidate (a b : Job) : Bool :=
  a.priority > b.priority
    || (a.priority == b.priority && a.time_created < b.time_created)

/-- Modelled from the spec: the top of the sorted candidate list — an
element no other candidate is scheduled strictly before (the leftmost such
element, matching a stable sort). -/
def pickBest : List Job → Option Job
  | [] => none
  | j :: rest =>
      match pickBest rest with
      | none => some j
      | some b => if betterCandidate b j then some b else some j

/-- Modelled from the spec: the atomic conditional claim update (sections
4.2 and 5): set status to `Scheduled`, `worker` and `timeAssigned` on the
row with uuid `x`, conditioned on its stored status still being claimable. -/
def claimUpdate (x wid now : Nat) (j : Job) : Job :=
  if j.uuid == x && (j.status == JobStatus.WAITING || j.status == JobStatus.STARVING) then
    { j with status := JobStatus.SCHEDULED, worker := some wid, time_assigned := some now }
  else j

/-- Modelled from the spec: `ClaimNext` (section 4.2, no dispatcher code is
under the available sources): pick the best eligible candidate and claim it
atomically; return `none` (Empty) when no eligible job exists. -/
def claimNext (caps : WorkerCaps) (wid now : Nat) (st : JobStore) :
    Option Nat × JobStore :=
  match pickBest (st.jobs.filter (eligible caps)) with
  | none => (none, st)
  | some j => (some j.uuid, { st with jobs := st.jobs.map (claimUpdate j.uuid wid now) })

/-- Run a serialization of claim calls by the given callers (caps, worker
id, clock), returning each caller's result in order. Each claim is a single
atomic conditional update (spec section 5), so any concurrent execution is
equivalent to some such serialization. -/
def runClaims : List (WorkerCaps × Nat × Nat) → JobStore → List (Option Nat) × JobStore
  | [], st => ([], st)
  | c :: rest, st =>
      let r := claimNext c.1 c.2.1 c.2.2 st
      let rr := runClaims rest r.2
      (r.1 :: rr.1, rr.2)

/-- Operations of the core's external interface (spec section 6). The
state machine code is not under the available sources; preconditions and
effects are modelled from the spec (sections 4.3, 5, 6). A failed
precondition leaves the prior state fully intact (section 7). -/
inductive Op where
  | triggerBuild (recipes : List ImageBuildRecipe) (recipe_name : String) (now : Nat)
  | claim (caps : WorkerCaps) (wid now : Nat)
  | startRunning (jid : Nat)
  | reportProgress (jid : Nat) (log : String)
  | complete (jid : Nat) (res : JobResult) (now : Nat)
  | markDepWait (jid : Nat)
  | clearDepWait (jid : Nat)
  | forceTerminate (jid : Nat) (now : Nat)
  | revokeClaim (jid : Nat)
  | starvationSweep (now threshold : Nat)

/-- Modelled from the spec: per-row effect of each non-claim, non-trigger
operation, guarded by its status precondition. -/
def opUpdate : Op → Job → Job
  | Op.startRunning jid, j =>
      if j.uuid == jid && j.status == JobStatus.SCHEDULED then
        { j with status := JobStatus.RUNNING }
      else j
  | Op.reportProgress jid log, j =>
      if j.uuid == jid && j.status == JobStatus.RUNNING then
        { j with latest_log_excerpt := some log }
      else j
  | Op.complete jid res now, j =>
      if j.uuid == jid && j.status == JobStatus.RUNNING then
        { j with status := JobStatus.DONE, result := res, time_finished := some now }
      else j
  | Op.markDepWait jid, j =>
      if j.uuid == jid && j.status == JobStatus.WAITING then
        { j with status := JobStatus.DEPWAIT }
      else j
  | Op.clearDepWait jid, j =>
      if j.uuid == jid && j.status == JobStatus.DEPWAIT then
        { j with status := JobStatus.WAITING }
      else j
  | Op.forceTerminate jid now, j =>
      if j.uuid == jid
          && !(j.status == JobStatus.DONE || j.status == JobStatus.TERMINATED) then
        { j with status := JobStatus.TERMINATED, time_finished := some now }
      else j
  | Op.revokeClaim jid, j =>
      if j.uuid == jid && j.status == JobStatus.SCHEDULED then
        { j with status := JobStatus.WAITING, worker := none }
      else j
  | Op.starvationSweep now threshold, j =>
      if j.status == JobStatus.WAITING && now - j.time_created > threshold then
        { j with status := JobStatus.STARVING }
      else j
  | _, j => j

/-- Modelled from the spec: apply one operation to the store. -/
def applyOp (st : JobStore) : Op → JobStore
  | Op.triggerBuild recipes name now =>
      match trigger_image_build recipes name now st with
      | Except.error _ => st
      | Except.ok (st2, _) => st2
  | Op.claim caps wid now => (claimNext caps wid now st).2
  | op => { st with jobs := st.jobs.map (opUpdate op) }

/-- Apply a sequence of operations in order. -/
def applyOps (ops : List Op) (st : JobStore) : JobStore :=
  ops.foldl applyOp st

/-- Status of the job with uuid `jid`, when present. -/
def statusOf (st : JobStore) (jid : Nat) : Option JobStatus :=
  (st.jobs.find? (fun j => j.uuid == jid)).map Job.status

/-! ### Helper lemmas about the trigger batch -/

lemma pendingJobs_length (r now base : Nat) (archs : List String) :
    (pendingJobs r now base archs).length = archs.length := by
  induction archs generalizing base with
  | nil => rfl
  | cons a rest ih => simp [pendingJobs, ih]

lemma pendingJobs_map_arch (r now base : Nat) (archs : List String) :
    (pendingJobs r now base archs).map Job.architecture = archs := by
  induction archs generalizing base with
  | nil => rfl
  | cons a rest ih => simp [pendingJobs, mkTriggerJob, Job.new, ih]

lemma pendingJobs_fields (r now base : Nat) (archs : List String) :
    ∀ j ∈ pendingJobs r now base archs,
      j.trigger = some r ∧ j.module = LkModule.ISOTOPE ∧
      j.kind = JobKind.OS_IMAGE_BUILD ∧ j.status = JobStatus.WAITING ∧
      j.result = JobResult.UNKNOWN := by
  induction archs generalizing base with
  | nil => intro j hj; cases hj
  | cons a rest ih =>
      intro j hj
      rcases List.mem_cons.1 hj with hj2 | hj2
      · subst hj2
        exact ⟨rfl, rfl, rfl, rfl, rfl⟩
      · exact ih (base + 1) j hj2

lemma pendingJobs_map_uuid (r now base : Nat) (archs : List String) :
    (pendingJobs r now base archs).map Job.uuid = List.range' base archs.length := by
  induction archs generalizing base with
  | nil => rfl
  | cons a rest ih => simp [pendingJobs, mkTriggerJob, Job.new, List.range', ih]

lemma countTrigger_sessionCommit (st : JobStore) (p : List Job) (r : Nat) :
    countTrigger (sessionCommit st p) r
      = countTrigger st r + (p.filter (fun j => j.trigger == some r)).length := by
  simp [countTrigger, sessionCommit, List.filter_append]

lemma pendingJobs_filter_trigger (r now base : Nat) (archs : List String) :
    (pendingJobs r now base archs).filter (fun j => j.trigger == some r)
      = pendingJobs r now base archs := by
  rw [List.filter_eq_self]
  intro j hj
  have h := (pendingJobs_fields r now base archs j hj).1
  simp [h]

/-! ### Claim theorems: job defaults and the trigger batch -/

/-- C10: a newly constructed Job record with no fields explicitly supplied
defaults to status `Waiting`, result `Unknown` and architecture `"any"`,
hence carries no outcome and is eligible for any worker whose supported
kinds include its kind, regardless of the worker's architectures. -/
theorem job_new_defaults (u now : Nat) :
    (Job.new u now).status = JobStatus.WAITING ∧
    (Job.new u now).result = JobResult.UNKNOWN ∧
    (Job.new u now).architecture = "any" ∧
    (Job.new u now).has_result = false ∧
    ∀ caps : WorkerCaps, caps.kinds.contains (Job.new u now).kind →
      eligible caps (Job.new u now) = true := by
  refine ⟨rfl, rfl, rfl, rfl, ?_⟩
  intro caps hk
  have hk2 : "" ∈ caps.kinds := by simpa [Job.new] using hk
  simp [eligible, Job.new, hk2]

/-- C2: for a trigger request resolving to a recipe with a non-empty list
of architectures, `trigger_image_build` succeeds and creates exactly one
Job per architecture, appended in input order, all sharing the recipe's
trigger reference, the isotope module and the `os-image-build` kind, each
with status `Waiting` and result `Unknown`. -/
theorem trigger_build_creates_batch (recipes : List ImageBuildRecipe)
    (nm : String) (recipe : ImageBuildRecipe) (now : Nat) (st : JobStore)
    (hfind : recipes.find? (fun r => r.name == nm) = some recipe)
    (hne : recipe.architectures ≠ []) :
    ∃ st2 : JobStore,
      trigger_image_build recipes nm now st
        = Except.ok (st2, recipe.architectures.length) ∧
      st2.jobs.length = st.jobs.length + recipe.architectures.length ∧
      (st2.jobs.drop st.jobs.length).map Job.architecture = recipe.architectures ∧
      ∀ j ∈ st2.jobs.drop st.jobs.length,
        j.trigger = some recipe.uuid ∧ j.module = LkModule.ISOTOPE ∧
        j.kind = JobKind.OS_IMAGE_BUILD ∧ j.status = JobStatus.WAITING ∧
        j.result = JobResult.UNKNOWN := by
  refine ⟨sessionCommit st (pendingJobs recipe.uuid now st.nextId recipe.architectures),
    ?_, ?_, ?_, ?_⟩
  · simp [trigger_image_build, hfind]
  · simp [sessionCommit, pendingJobs_length]
  · rw [sessionCommit, List.drop_left, pendingJobs_map_arch]
  · rw [sessionCommit, List.drop_left]
    exact pendingJobs_fields recipe.uuid now st.nextId recipe.architectures

/-- Shared concrete recipe used to instantiate trigger theorems. -/
def wRecipe : ImageBuildRecipe :=
  { uuid := 5, name := "img-recipe", architectures := ["amd64", "arm64"] }

/-- Shared concrete recipe with an empty architecture list. -/
def wEmptyRecipe : ImageBuildRecipe :=
  { uuid := 7, name := "empty-recipe", architectures := [] }

/-- Shared empty store. -/
def wStore : JobStore := { jobs := [], nextId := 0 }

/-- Witness for C2 at a concrete recipe with two architectures. -/
theorem trigger_build_creates_batch_witness :
    ∃ st2 : JobStore,
      trigger_image_build [wRecipe] "img-recipe" 3 wStore
        = Except.ok (st2, wRecipe.architectures.length) ∧
      st2.jobs.length = wStore.jobs.length + wRecipe.architectures.length ∧
      (st2.jobs.drop wStore.jobs.length).map Job.architecture = wRecipe.architectures ∧
      ∀ j ∈ st2.jobs.drop wStore.jobs.length,
        j.trigger = some wRecipe.uuid ∧ j.module = LkModule.ISOTOPE ∧
        j.kind = JobKind.OS_IMAGE_BUILD ∧ j.status = JobStatus.WAITING ∧
        j.result = JobResult.UNKNOWN :=
  trigger_build_creates_batch [wRecipe] "img-recipe" wRecipe 3 wStore
    (by decide) (by decide)

/-- C3 counterexample: at a concrete recipe whose architecture list is
empty, `trigger_image_build` does not fail at all — it succeeds (commits)
with zero jobs created and reports a job count of zero, contradicting the
claim that an empty architecture list fails with a `ValidationError` (no
such validation exists in the code). -/
theorem trigger_empty_archs_counterexample :
    trigger_image_build [wEmptyRecipe] "empty-recipe" 0 wStore
      = Except.ok (wStore, 0) := by
  simp [trigger_image_build, wEmptyRecipe, wStore, sessionCommit, pendingJobs]

/-- C3 amended: for every trigger request resolving to a recipe whose
architecture list is empty, `trigger_image_build` succeeds without error,
creates no Jobs (the store is unchanged) and reports a job count of zero. -/
theorem trigger_empty_archs_succeeds (recipes : List ImageBuildRecipe)
    (nm : String) (recipe : ImageBuildRecipe) (now : Nat) (st : JobStore)
    (hfind : recipes.find? (fun r => r.name == nm) = some recipe)
    (hempty : recipe.architectures = []) :
    trigger_image_build recipes nm now st = Except.ok (st, 0) := by
  simp [trigger_image_build, hfind, hempty, sessionCommit, pendingJobs]

/-- Witness for the amended C3 at a concrete empty-architecture recipe. -/
theorem trigger_empty_archs_succeeds_witness :
    trigger_image_build [wEmptyRecipe] "empty-recipe" 4 wStore
      = Except.ok (wStore, 0) :=
  trigger_empty_archs_succeeds [wEmptyRecipe] "empty-recipe" wEmptyRecipe 4 wStore
    (by decide) (by decide)

/-- C4: job creation is all-or-nothing. For every trigger request against a
store holding no job with the recipe's trigger reference, after the run
either exactly `k` Jobs carry that reference (fault-free run) or zero do;
any fault aborts the transaction and leaves zero. -/
theorem trigger_batch_atomic (recipes : List ImageBuildRecipe) (nm : String)
    (recipe : ImageBuildRecipe) (now : Nat) (fault : Option Nat) (st : JobStore)
    (hfind : recipes.find? (fun r => r.name == nm) = some recipe)
    (hzero : countTrigger st recipe.uuid = 0) :
    (countTrigger (trigger_image_build_faulty recipes nm now fault st).1 recipe.uuid
        = recipe.architectures.length
      ∨ countTrigger (trigger_image_build_faulty recipes nm now fault st).1 recipe.uuid
        = 0) ∧
    (fault.isSome →
      countTrigger (trigger_image_build_faulty recipes nm now fault st).1 recipe.uuid
        = 0) := by
  cases fault with
  | some i =>
      refine ⟨Or.inr ?_, fun _ => ?_⟩ <;>
        simpa [trigger_image_build_faulty] using hzero
  | none =>
      refine ⟨Or.inl ?_, by simp⟩
      show countTrigger (trigger_image_build_faulty recipes nm now none st).1 recipe.uuid
        = recipe.architectures.length
      simp only [trigger_image_build_faulty, trigger_image_build, hfind]
      rw [countTrigger_sessionCommit, pendingJobs_filter_trigger, hzero,
        pendingJobs_length, Nat.zero_add]

/-- Witness for C4 at a concrete recipe, both for a faulty and a clean run. -/
theorem trigger_batch_atomic_witness :
    ((countTrigger (trigger_image_build_faulty [wRecipe] "img-recipe" 3 (some 1) wStore).1
          wRecipe.uuid = wRecipe.architectures.length
      ∨ countTrigger (trigger_image_build_faulty [wRecipe] "img-recipe" 3 (some 1) wStore).1
          wRecipe.uuid = 0) ∧
     ((some 1 : Option Nat).isSome →
       countTrigger (trigger_image_build_faulty [wRecipe] "img-recipe" 3 (some 1) wStore).1
          wRecipe.uuid = 0)) ∧
    (countTrigger (trigger_image_build_faulty [wRecipe] "img-recipe" 3 none wStore).1
        wRecipe.uuid = wRecipe.architectures.length
      ∨ countTrigger (trigger_image_build_faulty [wRecipe] "img-recipe" 3 none wStore).1
          wRecipe.uuid = 0) :=
  ⟨trigger_batch_atomic [wRecipe] "img-recipe" wRecipe 3 (some 1) wStore
      (by decide) (by decide),
   (trigger_batch_atomic [wRecipe] "img-recipe" wRecipe 3 none wStore
      (by decide) (by decide)).1⟩

/-- Witness for C10 at a concrete uuid, clock and worker capability set. -/
theorem job_new_defaults_witness :
    (Job.new 0 0).status = JobStatus.WAITING ∧
    (Job.new 0 0).result = JobResult.UNKNOWN ∧
    (Job.new 0 0).architecture = "any" ∧
    (Job.new 0 0).has_result = false ∧
    eligible (WorkerCaps.mk ["riscv64"] [""]) (Job.new 0 0) = true := by
  obtain ⟨h1, h2, h3, h4, h5⟩ := job_new_defaults 0 0
  exact ⟨h1, h2, h3, h4, h5 (WorkerCaps.mk ["riscv64"] [""]) (by decide)⟩

/-! ### Uuid freshness across trigger batches -/

/-- Well-formedness of the fresh-id supply: every persisted uuid is below
`nextId` and uuids are pairwise distinct. -/
def StoreWF (st : JobStore) : Prop :=
  (∀ j ∈ st.jobs, j.uuid < st.nextId) ∧ (st.jobs.map Job.uuid).Nodup

lemma mem_range_interval {b n x : Nat} : x ∈ List.range' b n ↔ b ≤ x ∧ x < b + n := by
  rw [List.mem_range']
  constructor
  · rintro ⟨i, hi, rfl⟩
    omega
  · rintro ⟨h1, h2⟩
    exact ⟨x - b, by omega, by omega⟩

lemma trigger_commit_wf (st : JobStore) (r now : Nat) (archs : List String)
    (hwf : StoreWF st) :
    StoreWF (sessionCommit st (pendingJobs r now st.nextId archs)) := by
  obtain ⟨hlt, hnd⟩ := hwf
  constructor
  · intro j hj
    rw [sessionCommit, pendingJobs_length] at hj ⊢
    rcases List.mem_append.1 hj with hj2 | hj2
    · have := hlt j hj2
      simp only []
      omega
    · have hu : j.uuid ∈ (pendingJobs r now st.nextId archs).map Job.uuid :=
        List.mem_map_of_mem Job.uuid hj2
      rw [pendingJobs_map_uuid] at hu
      have := mem_range_interval.1 hu
      simp only []
      omega
  · rw [sessionCommit]
    simp only [List.map_append, pendingJobs_map_uuid]
    rw [List.nodup_append]
    refine ⟨hnd, List.nodup_range' st.nextId archs.length, ?_⟩
    intro x hx hx2
    rcases List.mem_map.1 hx with ⟨j, hj, rfl⟩
    have h1 := hlt j hj
    have h2 := (mem_range_interval.1 hx2).1
    omega

/-- C5: invoking the trigger twice with the same trigger reference and the
same architecture list succeeds both times and yields two independent
batches — afterwards exactly `2k` Jobs carry the trigger reference, and
every persisted job keeps its own unique id (no de-duplication). -/
theorem trigger_twice_independent_batches (recipes : List ImageBuildRecipe)
    (nm : String) (recipe : ImageBuildRecipe) (t1 t2 : Nat) (st : JobStore)
    (hfind : recipes.find? (fun r => r.name == nm) = some recipe)
    (hwf : StoreWF st)
    (hzero : countTrigger st recipe.uuid = 0) :
    ∃ st1 st2 : JobStore,
      trigger_image_build recipes nm t1 st
        = Except.ok (st1, recipe.architectures.length) ∧
      trigger_image_build recipes nm t2 st1
        = Except.ok (st2, recipe.architectures.length) ∧
      countTrigger st2 recipe.uuid = 2 * recipe.architectures.length ∧
      (st2.jobs.map Job.uuid).Nodup := by
  refine ⟨sessionCommit st (pendingJobs recipe.uuid t1 st.nextId recipe.architectures),
    sessionCommit
      (sessionCommit st (pendingJobs recipe.uuid t1 st.nextId recipe.architectures))
      (pendingJobs recipe.uuid t2
        (sessionCommit st (pendingJobs recipe.uuid t1 st.nextId recipe.architectures)).nextId
        recipe.architectures),
    ?_, ?_, ?_, ?_⟩
  · simp [trigger_image_build, hfind]
  · simp [trigger_image_build, hfind]
  · rw [countTrigger_sessionCommit, countTrigger_sessionCommit,
      pendingJobs_filter_trigger, pendingJobs_filter_trigger, hzero,
      pendingJobs_length, pendingJobs_length]
    omega
  · have hwf1 := trigger_commit_wf st recipe.uuid t1 recipe.architectures hwf
    exact (trigger_commit_wf _ recipe.uuid t2 recipe.architectures hwf1).2

/-- Witness for C5 at a concrete recipe and empty initial store. -/
theorem trigger_twice_independent_batches_witness :
    ∃ st1 st2 : JobStore,
      trigger_image_build [wRecipe] "img-recipe" 1 wStore
        = Except.ok (st1, wRecipe.architectures.length) ∧
      trigger_image_build [wRecipe] "img-recipe" 2 st1
        = Except.ok (st2, wRecipe.architectures.length) ∧
      countTrigger st2 wRecipe.uuid = 2 * wRecipe.architectures.length ∧
      (st2.jobs.map Job.uuid).Nodup :=
  trigger_twice_independent_batches [wRecipe] "img-recipe" wRecipe 1 2 wStore
    (by decide) ⟨by decide, by decide⟩ (by decide)

/-! ### Helper lemmas about the dispatcher -/

lemma betterCandidate_irrefl (a : Job) : betterCandidate a a = false := by
  simp [betterCandidate]

lemma betterCandidate_false_iff (a b : Job) :
    betterCandidate a b = false
      ↔ a.priority ≤ b.priority ∧ (a.priority = b.priority → b.time_created ≤ a.time_created) := by
  simp only [betterCandidate, Bool.or_eq_false_iff, Bool.and_eq_false_iff,
    decide_eq_false_iff_not, not_lt, beq_eq_false_iff_ne, ne_eq]
  constructor
  · rintro ⟨h1, h2 | h2⟩
    · exact ⟨h1, fun he => absurd he h2⟩
    · exact ⟨h1, fun _ => h2⟩
  · rintro ⟨h1, h2⟩
    by_cases he : a.priority = b.priority
    · exact ⟨h1, Or.inr (h2 he)⟩
    · exact ⟨h1, Or.inl he⟩

lemma betterCandidate_asymm (a b : Job) (h : betterCandidate a b = true) :
    betterCandidate b a = false := by
  simp only [betterCandidate, Bool.or_eq_true, Bool.and_eq_true,
    decide_eq_true_eq, beq_iff_eq] at h
  rw [betterCandidate_false_iff]
  rcases h with h | ⟨h1, h2⟩
  · exact ⟨le_of_lt h, fun he => absurd he (by omega)⟩
  · exact ⟨le_of_eq h1.symm, fun _ => le_of_lt h2⟩

lemma betterCandidate_false_trans (a b c : Job)
    (h1 : betterCandidate a b = false) (h2 : betterCandidate b c = false) :
    betterCandidate a c = false := by
  rw [betterCandidate_false_iff] at h1 h2 ⊢
  obtain ⟨hp1, ht1⟩ := h1
  obtain ⟨hp2, ht2⟩ := h2
  refine ⟨le_trans hp1 hp2, fun he => ?_⟩
  have he1 : a.priority = b.priority := by omega
  have he2 : b.priority = c.priority := by omega
  exact le_trans (ht2 he2) (ht1 he1)

lemma pickBest_eq_none (l : List Job) : pickBest l = none ↔ l = [] := by
  cases l with
  | nil => simp [pickBest]
  | cons j rest =>
      simp only [pickBest]
      cases pickBest rest with
      | none => simp
      | some b =>
          constructor
          · intro h
            by_cases hb : betterCandidate b j = true <;> simp [hb] at h
          · intro h
            cases h

lemma pickBest_maximal (l : List Job) : ∀ b : Job, pickBest l = some b →
    b ∈ l ∧ ∀ x ∈ l, betterCandidate x b = false := by
  induction l with
  | nil => intro b h; cases h
  | cons j rest ih =>
      intro b h
      rw [pickBest] at h
      cases hr : pickBest rest with
      | none =>
          rw [hr] at h
          have hb : b = j := (Option.some.inj h).symm
          subst hb
          have hrest : rest = [] := (pickBest_eq_none rest).1 hr
          subst hrest
          refine ⟨List.mem_singleton_self b, ?_⟩
          intro x hx
          have hx2 : x = b := by simpa using hx
          subst hx2
          exact betterCandidate_irrefl x
      | some p =>
          rw [hr] at h
          obtain ⟨hpmem, hpmax⟩ := ih p hr
          have h2 : (if betterCandidate p j = true then some p else some j) = some b := h
          by_cases hbp : betterCandidate p j = true
          · rw [if_pos hbp] at h2
            have hb : b = p := (Option.some.inj h2).symm
            subst hb
            refine ⟨List.mem_cons_of_mem j hpmem, ?_⟩
            intro x hx
            rcases List.mem_cons.1 hx with hx2 | hx2
            · subst hx2
              exact betterCandidate_asymm b x hbp
            · exact hpmax x hx2
          · rw [if_neg hbp] at h2
            have hb : b = j := (Option.some.inj h2).symm
            subst hb
            refine ⟨List.mem_cons_self b rest, ?_⟩
            intro x hx
            rcases List.mem_cons.1 hx with hx2 | hx2
            · subst hx2
              exact betterCandidate_irrefl x
            · exact betterCandidate_false_trans x p b (hpmax x hx2)
                (Bool.eq_false_iff.2 (fun hc => hbp hc))

lemma eligible_claimable (caps : WorkerCaps) (j : Job) (h : eligible caps j = true) :
    j.status = JobStatus.WAITING ∨ j.status = JobStatus.STARVING := by
  simp only [eligible, Bool.and_eq_true, Bool.or_eq_true, beq_iff_eq] at h
  exact h.1.1

lemma claimNext_of_no_candidates (caps : WorkerCaps) (wid now : Nat) (st : JobStore)
    (h : st.jobs.filter (eligible caps) = []) :
    claimNext caps wid now st = (none, st) := by
  simp [claimNext, h, pickBest]

lemma runClaims_all_empty (callers : List (WorkerCaps × Nat × Nat)) (st : JobStore)
    (h : ∀ c ∈ callers, st.jobs.filter (eligible c.1) = []) :
    runClaims callers st = (List.replicate callers.length none, st) := by
  induction callers with
  | nil => rfl
  | cons c rest ih =>
      rw [runClaims, claimNext_of_no_candidates c.1 c.2.1 c.2.2 st
        (h c (List.mem_cons_self c rest))]
      rw [ih (fun c2 hc2 => h c2 (List.mem_cons_of_mem c hc2))]
      simp [List.replicate]

lemma no_candidates_after_claim (caps2 : WorkerCaps) (l : List Job) (j0 : Job)
    (wid now : Nat) (h2 : l.filter (eligible caps2) = [j0]) :
    (l.map (claimUpdate j0.uuid wid now)).filter (eligible caps2) = [] := by
  rw [List.filter_eq_nil_iff]
  intro y hy
  rcases List.mem_map.1 hy with ⟨j, hj, rfl⟩
  by_cases hcond : (j.uuid == j0.uuid
      && (j.status == JobStatus.WAITING || j.status == JobStatus.STARVING)) = true
  · intro helig
    have hy2 : (claimUpdate j0.uuid wid now j).status = JobStatus.SCHEDULED := by
      simp [claimUpdate, hcond]
    have := eligible_claimable caps2 _ helig
    rw [hy2] at this
    rcases this with h | h <;> cases h
  · have hid : claimUpdate j0.uuid wid now j = j := by
      simp only [claimUpdate]
      rw [if_neg (fun hc => hcond hc)]
    rw [hid]
    intro helig
    have hmem : j ∈ l.filter (eligible caps2) := List.mem_filter.2 ⟨hj, helig⟩
    rw [h2] at hmem
    have hj0 : j = j0 := by simpa using hmem
    subst hj0
    have hclaim := eligible_claimable caps2 j helig
    apply hcond
    simp only [Bool.and_eq_true, Bool.or_eq_true, beq_iff_eq, beq_self_eq_true,
      true_and]
    rcases hclaim with h | h
    · exact Or.inl (by rw [h])
    · exact Or.inr (by rw [h])

/-! ### Claim theorems: the dispatcher -/

/-- C1: for a `Waiting` job that is the only eligible one for each of
N ≥ 2 claimants, any serialization of their atomic `ClaimNext` calls hands
the job to exactly one caller — the rest receive Empty — and the claimed
job ends `Scheduled` with its worker set; no job is ever held by two
claimants. -/
theorem exclusive_claim (callers : List (WorkerCaps × Nat × Nat)) (st : JobStore)
    (j0 : Job) (hN : 2 ≤ callers.length)
    (hone : ∀ c ∈ callers, st.jobs.filter (eligible c.1) = [j0]) :
    (runClaims callers st).1.count (some j0.uuid) = 1 ∧
    (∀ x ∈ (runClaims callers st).1, x = some j0.uuid ∨ x = none) ∧
    (∃ j ∈ (runClaims callers st).2.jobs,
        j.uuid = j0.uuid ∧ j.status = JobStatus.SCHEDULED ∧ j.worker.isSome) := by
  match callers, hN with
  | c :: rest, _ =>
    have hc : st.jobs.filter (eligible c.1) = [j0] :=
      hone c (List.mem_cons_self c rest)
    have hj0f : j0 ∈ st.jobs.filter (eligible c.1) := by
      rw [hc]; exact List.mem_singleton_self j0
    have hj0mem : j0 ∈ st.jobs := (List.mem_filter.1 hj0f).1
    have hj0elig : eligible c.1 j0 = true := (List.mem_filter.1 hj0f).2
    have hclaim : claimNext c.1 c.2.1 c.2.2 st
        = (some j0.uuid,
           { st with jobs := st.jobs.map (claimUpdate j0.uuid c.2.1 c.2.2) }) := by
      rw [claimNext, hc]
      rfl
    have hrest : ∀ c2 ∈ rest,
        (st.jobs.map (claimUpdate j0.uuid c.2.1 c.2.2)).filter (eligible c2.1) = [] := by
      intro c2 hc2
      exact no_candidates_after_claim c2.1 st.jobs j0 c.2.1 c.2.2
        (hone c2 (List.mem_cons_of_mem c hc2))
    have hrun : runClaims (c :: rest) st
        = (some j0.uuid :: List.replicate rest.length none,
           { st with jobs := st.jobs.map (claimUpdate j0.uuid c.2.1 c.2.2) }) := by
      rw [runClaims, hclaim,
        runClaims_all_empty rest _ (fun c2 hc2 => hrest c2 hc2)]
    rw [hrun]
    refine ⟨?_, ?_, ?_⟩
    · rw [List.count_cons]
      simp [List.count_replicate]
    · intro x hx
      rcases List.mem_cons.1 hx with hx2 | hx2
      · exact Or.inl hx2
      · exact Or.inr (List.eq_of_mem_replicate hx2)
    · have hupd : claimUpdate j0.uuid c.2.1 c.2.2 j0
          = { j0 with
              status := JobStatus.SCHEDULED
              worker := some c.2.1
              time_assigned := some c.2.2 } := by
        rcases eligible_claimable c.1 j0 hj0elig with hstat | hstat <;>
          simp [claimUpdate, hstat]
      refine ⟨claimUpdate j0.uuid c.2.1 c.2.2 j0,
        List.mem_map_of_mem _ hj0mem, ?_, ?_, ?_⟩ <;> simp [hupd]

/-- Shared concrete job, store and capability set for dispatcher witnesses. -/
def wJob : Job :=
  { Job.new 1 0 with kind := JobKind.OS_IMAGE_BUILD, architecture := "any" }

/-- Shared one-job store. -/
def wOneJobStore : JobStore := { jobs := [wJob], nextId := 2 }

/-- Shared worker capability set. -/
def wCaps : WorkerCaps := { archs := ["amd64"], kinds := [JobKind.OS_IMAGE_BUILD] }

/-- Witness for C1: two concurrent claimants against a one-job pool. -/
theorem exclusive_claim_witness :
    (runClaims [(wCaps, 11, 4), (wCaps, 12, 5)] wOneJobStore).1.count (some wJob.uuid)
        = 1 ∧
    (∀ x ∈ (runClaims [(wCaps, 11, 4), (wCaps, 12, 5)] wOneJobStore).1,
        x = some wJob.uuid ∨ x = none) ∧
    (∃ j ∈ (runClaims [(wCaps, 11, 4), (wCaps, 12, 5)] wOneJobStore).2.jobs,
        j.uuid = wJob.uuid ∧ j.status = JobStatus.SCHEDULED ∧ j.worker.isSome) :=
  exclusive_claim [(wCaps, 11, 4), (wCaps, 12, 5)] wOneJobStore wJob
    (by decide) (by decide)

/-- Job A of the priority/fairness scenario: priority 10, created at t=1. -/
def jobA : Job :=
  { Job.new 1 1 with kind := JobKind.OS_IMAGE_BUILD, priority := 10 }

/-- Job B of the priority/fairness scenario: priority 20, created at t=2. -/
def jobB : Job :=
  { Job.new 2 2 with kind := JobKind.OS_IMAGE_BUILD, priority := 20 }

/-- Job C of the priority/fairness scenario: priority 10, created at t=2. -/
def jobC : Job :=
  { Job.new 3 2 with kind := JobKind.OS_IMAGE_BUILD, priority := 10 }

/-- Store holding the three scenario jobs. -/
def abcStore : JobStore := { jobs := [jobA, jobB, jobC], nextId := 4 }

/-- C6: whenever `ClaimNext` returns a job, that job is an eligible
candidate whose priority is maximal among all eligible candidates, and
whose creation time is minimal among equal-priority candidates. In
particular, with jobs A (priority 10, t=1), B (priority 20, t=2) and
C (priority 10, t=2) all eligible, three successive claims return
B, then A, then C. -/
theorem claimNext_priority_fairness (caps : WorkerCaps) (wid now : Nat)
    (st : JobStore) (jid : Nat) (st2 : JobStore)
    (h : claimNext caps wid now st = (some jid, st2)) :
    (∃ j ∈ st.jobs.filter (eligible caps), j.uuid = jid ∧
      ∀ x ∈ st.jobs.filter (eligible caps),
        x.priority ≤ j.priority ∧
        (x.priority = j.priority → j.time_created ≤ x.time_created)) ∧
    ((claimNext wCaps 7 10 abcStore).1 = some jobB.uuid ∧
     (claimNext wCaps 7 11 (claimNext wCaps 7 10 abcStore).2).1 = some jobA.uuid ∧
     (claimNext wCaps 7 12
        (claimNext wCaps 7 11 (claimNext wCaps 7 10 abcStore).2).2).1
       = some jobC.uuid) := by
  constructor
  · rw [claimNext] at h
    cases hp : pickBest (st.jobs.filter (eligible caps)) with
    | none =>
        rw [hp] at h
        cases h
    | some b =>
        rw [hp] at h
        obtain ⟨hbmem, hbmax⟩ := pickBest_maximal _ b hp
        have hid : b.uuid = jid := congrArg Prod.fst h |> Option.some.inj
        refine ⟨b, hbmem, hid, ?_⟩
        intro x hx
        have := (betterCandidate_false_iff x b).1 (hbmax x hx)
        exact this
  · refine ⟨?_, ?_, ?_⟩ <;> decide

/-- Witness for C6: the scenario store itself discharges the hypothesis. -/
theorem claimNext_priority_fairness_witness :
    (∃ j ∈ abcStore.jobs.filter (eligible wCaps), j.uuid = 2 ∧
      ∀ x ∈ abcStore.jobs.filter (eligible wCaps),
        x.priority ≤ j.priority ∧
        (x.priority = j.priority → j.time_created ≤ x.time_created)) ∧
    ((claimNext wCaps 7 10 abcStore).1 = some jobB.uuid ∧
     (claimNext wCaps 7 11 (claimNext wCaps 7 10 abcStore).2).1 = some jobA.uuid ∧
     (claimNext wCaps 7 12
        (claimNext wCaps 7 11 (claimNext wCaps 7 10 abcStore).2).2).1
       = some jobC.uuid) :=
  claimNext_priority_fairness wCaps 7 10 abcStore 2
    (claimNext wCaps 7 10 abcStore).2 (by decide)

/-- C7: `ClaimNext` never returns a job whose concrete architecture the
worker does not advertise — any returned job's architecture is the
wildcard `"any"` or among the worker's architectures — and a job with the
wildcard architecture is eligible for every worker whose supported kinds
include the job's kind, whatever the worker's architecture list. -/
theorem claimNext_capability_filtering (caps : WorkerCaps) (wid now : Nat)
    (st : JobStore) (jid : Nat) (st2 : JobStore)
    (h : claimNext caps wid now st = (some jid, st2)) :
    (∃ j ∈ st.jobs, j.uuid = jid ∧ j.kind ∈ caps.kinds ∧
      (j.architecture = "any" ∨ j.architecture ∈ caps.archs)) ∧
    (∀ caps2 : WorkerCaps, ∀ j : Job,
      (j.status = JobStatus.WAITING ∨ j.status = JobStatus.STARVING) →
      j.kind ∈ caps2.kinds → j.architecture = "any" →
      eligible caps2 j = true) := by
  constructor
  · rw [claimNext] at h
    cases hp : pickBest (st.jobs.filter (eligible caps)) with
    | none =>
        rw [hp] at h
        cases h
    | some b =>
        rw [hp] at h
        obtain ⟨hbmem, _⟩ := pickBest_maximal _ b hp
        have hid : b.uuid = jid := congrArg Prod.fst h |> Option.some.inj
        obtain ⟨hbjobs, hbelig⟩ := List.mem_filter.1 hbmem
        simp only [eligible, Bool.and_eq_true, Bool.or_eq_true, beq_iff_eq] at hbelig
        refine ⟨b, hbjobs, hid, List.mem_of_elem_eq_true hbelig.1.2, ?_⟩
        rcases hbelig.2 with h2 | h2
        · exact Or.inl h2
        · exact Or.inr (List.mem_of_elem_eq_true h2)
  · intro caps2 j hst hk ha
    simp only [eligible, Bool.and_eq_true, Bool.or_eq_true, beq_iff_eq]
    exact ⟨⟨hst, List.elem_eq_true_of_mem hk⟩, Or.inl ha⟩

/-- Witness for C7 at the one-job store and a worker lacking the job's
architecture but accepting the wildcard. -/
theorem claimNext_capability_filtering_witness :
    ((∃ j ∈ wOneJobStore.jobs, j.uuid = 1 ∧ j.kind ∈ wCaps.kinds ∧
      (j.architecture = "any" ∨ j.architecture ∈ wCaps.archs)) ∧
    (∀ caps2 : WorkerCaps, ∀ j : Job,
      (j.status = JobStatus.WAITING ∨ j.status = JobStatus.STARVING) →
      j.kind ∈ caps2.kinds → j.architecture = "any" →
      eligible caps2 j = true)) :=
  claimNext_capability_filtering wCaps 11 4 wOneJobStore 1
    (claimNext wCaps 11 4 wOneJobStore).2 (by decide)

/-! ### Helper lemmas about the state machine -/

lemma claimUpdate_uuid (x wid now : Nat) (j : Job) :
    (claimUpdate x wid now j).uuid = j.uuid := by
  rw [claimUpdate]
  split <;> rfl

lemma opUpdate_uuid (op : Op) (j : Job) : (opUpdate op j).uuid = j.uuid := by
  cases op <;> simp only [opUpdate] <;> (try split) <;> rfl

/-- Done and Terminated statuses. -/
def TerminalStatus (s : JobStatus) : Prop :=
  s = JobStatus.DONE ∨ s = JobStatus.TERMINATED

lemma claimUpdate_terminal (x wid now : Nat) (j : Job)
    (h : TerminalStatus j.status) : claimUpdate x wid now j = j := by
  rcases h with h | h <;> simp [claimUpdate, h]

lemma opUpdate_terminal (op : Op) (j : Job) (h : TerminalStatus j.status) :
    opUpdate op j = j := by
  rcases h with h | h <;> cases op <;> simp [opUpdate, h]

lemma find?_uuid_map (f : Job → Job) (l : List Job) (jid : Nat)
    (huuid : ∀ j, (f j).uuid = j.uuid) :
    (l.map f).find? (fun j => j.uuid == jid)
      = (l.find? (fun j => j.uuid == jid)).map f := by
  rw [List.find?_map]
  have hp : ((fun j => j.uuid == jid) ∘ f) = (fun j : Job => j.uuid == jid) := by
    funext j
    simp [huuid j]
  rw [hp]

lemma statusOf_map_fixed (f : Job → Job) (st : JobStore) (jid : Nat)
    (s : JobStatus) (huuid : ∀ j, (f j).uuid = j.uuid)
    (hfix : ∀ j, j.status = s → f j = j)
    (h : statusOf st jid = some s) :
    statusOf { st with jobs := st.jobs.map f } jid = some s := by
  rw [statusOf] at h ⊢
  rw [find?_uuid_map f st.jobs jid huuid]
  cases hf : st.jobs.find? (fun j => j.uuid == jid) with
  | none => rw [hf] at h; cases h
  | some j =>
      rw [hf] at h
      have hs : j.status = s := Option.some.inj h
      simp [hfix j hs, hs]

lemma statusOf_append (st : JobStore) (extra : List Job) (m : Nat) (jid : Nat)
    (s : JobStatus) (h : statusOf st jid = some s) :
    statusOf { jobs := st.jobs ++ extra, nextId := m } jid = some s := by
  rw [statusOf] at h ⊢
  rw [List.find?_append]
  cases hf : st.jobs.find? (fun j => j.uuid == jid) with
  | none => rw [hf] at h; cases h
  | some j => rw [hf] at h; exact h

lemma statusOf_applyOp_terminal (op : Op) (st : JobStore) (jid : Nat)
    (s : JobStatus) (hterm : TerminalStatus s) (h : statusOf st jid = some s) :
    statusOf (applyOp st op) jid = some s := by
  have hfixop : ∀ op2 j, j.status = s → opUpdate op2 j = j := fun op2 j hj =>
    opUpdate_terminal op2 j (hj ▸ hterm)
  cases op with
  | triggerBuild recipes nm now =>
      cases hf : recipes.find? (fun r => r.name == nm) with
      | none =>
          have ht : trigger_image_build recipes nm now st = Except.error 2 := by
            rw [trigger_image_build, hf]
          rw [applyOp, ht]
          exact h
      | some recipe =>
          have ht : trigger_image_build recipes nm now st
              = Except.ok (sessionCommit st
                  (pendingJobs recipe.uuid now st.nextId recipe.architectures),
                recipe.architectures.length) := by
            rw [trigger_image_build, hf]
          rw [applyOp, ht]
          exact statusOf_append st _ _ jid s h
  | claim caps wid now =>
      rw [applyOp, claimNext]
      cases hp : pickBest (st.jobs.filter (eligible caps)) with
      | none => exact h
      | some b =>
          exact statusOf_map_fixed _ st jid s (claimUpdate_uuid b.uuid wid now)
            (fun j hj => claimUpdate_terminal b.uuid wid now j (hj ▸ hterm)) h
  | startRunning jid2 =>
      exact statusOf_map_fixed _ st jid s (opUpdate_uuid _) (hfixop _) h
  | reportProgress jid2 log =>
      exact statusOf_map_fixed _ st jid s (opUpdate_uuid _) (hfixop _) h
  | complete jid2 res now =>
      exact statusOf_map_fixed _ st jid s (opUpdate_uuid _) (hfixop _) h
  | markDepWait jid2 =>
      exact statusOf_map_fixed _ st jid s (opUpdate_uuid _) (hfixop _) h
  | clearDepWait jid2 =>
      exact statusOf_map_fixed _ st jid s (opUpdate_uuid _) (hfixop _) h
  | forceTerminate jid2 now =>
      exact statusOf_map_fixed _ st jid s (opUpdate_uuid _) (hfixop _) h
  | revokeClaim jid2 =>
      exact statusOf_map_fixed _ st jid s (opUpdate_uuid _) (hfixop _) h
  | starvationSweep now threshold =>
      exact statusOf_map_fixed _ st jid s (opUpdate_uuid _) (hfixop _) h

/-- C8: Done and Terminated are terminal — for a job whose status is Done
or Terminated, no sequence of operations (trigger, claim, start, progress
report, completion, dependency marking, claim revocation, force-terminate,
starvation sweep) ever changes its status again. -/
theorem terminal_status_closed (ops : List Op) (st : JobStore) (jid : Nat)
    (s : JobStatus) (hterm : TerminalStatus s)
    (h : statusOf st jid = some s) :
    statusOf (applyOps ops st) jid = some s := by
  induction ops generalizing st with
  | nil => exact h
  | cons op rest ih =>
      exact ih (applyOp st op) (statusOf_applyOp_terminal op st jid s hterm h)

/-- Shared finished job used by the terminal-state witness. -/
def wDoneJob : Job :=
  { Job.new 6 0 with status := JobStatus.DONE, result := JobResult.SUCCESS }

/-- Witness for C8: a Done job survives a claim, a force-terminate, a
dependency mark and a starvation sweep untouched. -/
theorem terminal_status_closed_witness :
    statusOf (applyOps
      [Op.claim wCaps 3 5, Op.forceTerminate 6 9, Op.markDepWait 6,
       Op.starvationSweep 99 1]
      { jobs := [wDoneJob], nextId := 7 }) 6 = some JobStatus.DONE :=
  terminal_status_closed
    [Op.claim wCaps 3 5, Op.forceTerminate 6 9, Op.markDepWait 6,
     Op.starvationSweep 99 1]
    { jobs := [wDoneJob], nextId := 7 } 6 JobStatus.DONE
    (Or.inl rfl) (by decide)

/-! ### The seven-value status invariant -/

/-- Membership in the seven states of the spec's state machine (every
`JobStatus` member except the enum's zero value `UNKNOWN`). -/
def StatusValid (s : JobStatus) : Prop :=
  s = JobStatus.WAITING ∨ s = JobStatus.DEPWAIT ∨ s = JobStatus.SCHEDULED ∨
  s = JobStatus.RUNNING ∨ s = JobStatus.DONE ∨ s = JobStatus.TERMINATED ∨
  s = JobStatus.STARVING

instance statusValid_decidable (s : JobStatus) : Decidable (StatusValid s) := by
  unfold StatusValid
  infer_instance

lemma opUpdate_statusValid (op : Op) (j : Job) (h : StatusValid j.status) :
    StatusValid (opUpdate op j).status := by
  cases op <;> simp only [opUpdate] <;> (try split) <;>
    simp [StatusValid, h] <;> exact h

lemma claimUpdate_statusValid (x wid now : Nat) (j : Job)
    (h : StatusValid j.status) : StatusValid (claimUpdate x wid now j).status := by
  rw [claimUpdate]
  split
  · simp [StatusValid]
  · exact h

lemma applyOp_statusValid (st : JobStore) (op : Op)
    (h : ∀ j ∈ st.jobs, StatusValid j.status) :
    ∀ j ∈ (applyOp st op).jobs, StatusValid j.status := by
  cases op with
  | triggerBuild recipes nm now =>
      cases hf : recipes.find? (fun r => r.name == nm) with
      | none =>
          have ht : trigger_image_build recipes nm now st = Except.error 2 := by
            rw [trigger_image_build, hf]
          rw [applyOp, ht]
          exact h
      | some recipe =>
          have ht : trigger_image_build recipes nm now st
              = Except.ok (sessionCommit st
                  (pendingJobs recipe.uuid now st.nextId recipe.architectures),
                recipe.architectures.length) := by
            rw [trigger_image_build, hf]
          rw [applyOp, ht]
          intro j hj
          rcases List.mem_append.1 hj with hj2 | hj2
          · exact h j hj2
          · have := (pendingJobs_fields recipe.uuid now st.nextId
              recipe.architectures j hj2).2.2.2.1
            exact Or.inl this
  | claim caps wid now =>
      rw [applyOp, claimNext]
      cases hp : pickBest (st.jobs.filter (eligible caps)) with
      | none => exact h
      | some b =>
          intro j hj
          rcases List.mem_map.1 hj with ⟨j0, hj0, rfl⟩
          exact claimUpdate_statusValid b.uuid wid now j0 (h j0 hj0)
  | startRunning jid =>
      simp only [applyOp]
      intro j hj
      rcases List.mem_map.1 hj with ⟨j0, hj0, rfl⟩
      exact opUpdate_statusValid _ j0 (h j0 hj0)
  | reportProgress jid log =>
      simp only [applyOp]
      intro j hj
      rcases List.mem_map.1 hj with ⟨j0, hj0, rfl⟩
      exact opUpdate_statusValid _ j0 (h j0 hj0)
  | complete jid res now =>
      simp only [applyOp]
      intro j hj
      rcases List.mem_map.1 hj with ⟨j0, hj0, rfl⟩
      exact opUpdate_statusValid _ j0 (h j0 hj0)
  | markDepWait jid =>
      simp only [applyOp]
      intro j hj
      rcases List.mem_map.1 hj with ⟨j0, hj0, rfl⟩
      exact opUpdate_statusValid _ j0 (h j0 hj0)
  | clearDepWait jid =>
      simp only [applyOp]
      intro j hj
      rcases List.mem_map.1 hj with ⟨j0, hj0, rfl⟩
      exact opUpdate_statusValid _ j0 (h j0 hj0)
  | forceTerminate jid now =>
      simp only [applyOp]
      intro j hj
      rcases List.mem_map.1 hj with ⟨j0, hj0, rfl⟩
      exact opUpdate_statusValid _ j0 (h j0 hj0)
  | revokeClaim jid =>
      simp only [applyOp]
      intro j hj
      rcases List.mem_map.1 hj with ⟨j0, hj0, rfl⟩
      exact opUpdate_statusValid _ j0 (h j0 hj0)
  | starvationSweep now threshold =>
      simp only [applyOp]
      intro j hj
      rcases List.mem_map.1 hj with ⟨j0, hj0, rfl⟩
      exact opUpdate_statusValid _ j0 (h j0 hj0)

/-- C9: every Job's status always lies in the seven-value set
`{Waiting, DepWait, Scheduled, Running, Done, Terminated, Starving}` — a
freshly constructed Job starts there, and every operation of the core
preserves membership for every persisted job. -/
theorem status_always_in_seven (ops : List Op) (st : JobStore)
    (h : ∀ j ∈ st.jobs, StatusValid j.status) :
    (∀ j ∈ (applyOps ops st).jobs, StatusValid j.status) ∧
    (∀ u now : Nat, StatusValid (Job.new u now).status) := by
  refine ⟨?_, fun u now => Or.inl rfl⟩
  induction ops generalizing st with
  | nil => exact h
  | cons op rest ih => exact ih (applyOp st op) (applyOp_statusValid st op h)

/-- Witness for C9: a mixed operation sequence on the scenario store. -/
theorem status_always_in_seven_witness :
    (∀ j ∈ (applyOps
        [Op.claim wCaps 3 5, Op.startRunning 2, Op.complete 2 JobResult.SUCCESS 9,
         Op.markDepWait 1, Op.starvationSweep 99 1, Op.forceTerminate 3 12]
        abcStore).jobs, StatusValid j.status) ∧
    (∀ u now : Nat, StatusValid (Job.new u now).status) :=
  status_always_in_seven
    [Op.claim wCaps 3 5, Op.startRunning 2, Op.complete 2 JobResult.SUCCESS 9,
     Op.markDepWait 1, Op.starvationSweep 99 1, Op.forceTerminate 3 12]
    abcStore (by decide)

end Laniakea
